import Mathlib

/-!
Shallow embedding of the github-commiter tool (src/main.go, src/gh-graphql.go).

The tool collects modified/added files from the local working tree, resolves
the remote repository id and the tip of refs/heads/main, checks whether the
target branch exists remotely, creates it if not, submits the collected file
additions as one commit guarded by an expected head object-id, and optionally
opens a pull request.

External effects (the local git repository and the remote GraphQL service)
are modelled as oracles: a `GitEnv` records what the local repository
operations return, a `RemoteEnv` records what each remote call returns, and
`mainRun` mirrors `main`, producing a final `Outcome` together with the
ordered trace of remote API calls that were issued.
-/

namespace GithubCommitter

/-- Status codes of the go-git `git.StatusCode` type (' ', '?', 'M', 'A', 'D', 'R',
'C', 'U'). -/
inductive StatusCode where
  | unmodified
  | untracked
  | modified
  | added
  | deleted
  | renamed
  | copied
  | updatedButUnmerged
deriving DecidableEq, Repr

/-- The go-git `git.FileStatus` record: independent staged and unstaged change kinds. -/
structure FileStatus where
  staging : StatusCode
  worktree : StatusCode
deriving DecidableEq, Repr

/-- The parsed command-line options (`Opts` in src/main.go). -/
structure Opts where
  repository : String
  branchName : String
  message : String
  pullRequest : Bool
deriving DecidableEq, Repr

/-- `githubv4.FileAddition`: a path together with base64-encoded contents. -/
structure FileAddition where
  path : String
  contents : List Char
deriving DecidableEq, Repr

/-- The fields of `githubv4.CreateCommitOnBranchInput` that `DoCommit` fills. -/
structure CreateCommitOnBranchInput where
  repositoryNameWithOwner : String
  branchName : String
  messageHeadline : String
  additions : List FileAddition
  expectedHeadOid : String
deriving DecidableEq, Repr

/-- The fields of `githubv4.CreateRefInput` that `CreateBranch` fills. -/
structure CreateRefInput where
  repositoryId : String
  name : String
  oid : String
deriving DecidableEq, Repr

/-- The fields of `githubv4.CreatePullRequestInput` that `CreatePullRequest`
fills. -/
structure CreatePullRequestInput where
  repositoryId : String
  baseRefName : String
  headRefName : String
  title : String
deriving DecidableEq, Repr

/-- One remote GraphQL round trip, identified by its operation and the request
data the Go code puts into it. -/
inductive ApiCall where
  | getMainOidQ (owner name : List Char)
  | checkBranchQ (owner name : List Char) (qualifiedName : String)
  | createRefM (input : CreateRefInput)
  | commitM (input : CreateCommitOnBranchInput)
  | createPRM (input : CreatePullRequestInput)
deriving DecidableEq, Repr

/-- The base64 standard alphabet used by `encoding/base64.StdEncoding`. -/
def base64Alphabet : List Char :=
  "ABCDEFGHIJKLMNOPQRSTUVWXYZabcdefghijklmnopqrstuvwxyz0123456789+/".data

/-- The character encoding one 6-bit group. -/
def base64Char (n : Nat) : Char := base64Alphabet.getD n 'A'

/-- `base64.StdEncoding.EncodeToString`: bytes to base64 text with `=`
padding. -/
def base64Encode : List Nat → List Char
  | [] => []
  | [b0] =>
      [base64Char (b0 / 4 % 64), base64Char (b0 % 4 * 16), '=', '=']
  | [b0, b1] =>
      [base64Char (b0 / 4 % 64), base64Char (b0 % 4 * 16 + b1 / 16),
       base64Char (b1 % 16 * 4), '=']
  | b0 :: b1 :: b2 :: rest =>
      base64Char (b0 / 4 % 64) :: base64Char (b0 % 4 * 16 + b1 / 16) ::
      base64Char (b1 % 16 * 4 + b2 / 64) :: base64Char (b2 % 64) ::
      base64Encode rest

/-- Go `strings.Split(s, "/")` on a character list: splits at every `'/'`,
yielding at least one (possibly empty) component. -/
def goSplitSlash : List Char → List (List Char)
  | [] => [[]]
  | c :: rest =>
      if c = '/' then [] :: goSplitSlash rest
      else
        match goSplitSlash rest with
        | [] => [[c]]
        | g :: gs => (c :: g) :: gs

/-- The owner/name extraction both `getMainOid` and `CheckBranchExists`
perform: `strings.Split(repo, "/")[0]` and `strings.Split(repo, "/")[1]`.
`none` models the index-out-of-range panic when component 1 is absent. -/
def splitRepo (s : String) : Option (List Char × List Char) :=
  match (goSplitSlash s.data).get? 0, (goSplitSlash s.data).get? 1 with
  | some o, some n => some (o, n)
  | _, _ => none

/-- The selection condition of `addChanges`:
`status.Worktree == git.Modified || status.Staging == git.Added ||
status.Staging == git.Modified`. -/
def qualifies (fs : FileStatus) : Bool :=
  fs.worktree == StatusCode.modified || fs.staging == StatusCode.added ||
    fs.staging == StatusCode.modified

/-- `b, _ := os.ReadFile(name)`: the error is discarded, a failed read yields
the nil byte slice. -/
def readBytes (rf : String → Except String (List Nat)) (name : String) :
    List Nat :=
  match rf name with
  | .ok b => b
  | .error _ => []

/-- The `githubv4.FileAddition` that `addChanges` appends for one qualifying
path. -/
def mkAddition (rf : String → Except String (List Nat)) (name : String) :
    FileAddition :=
  { path := name, contents := base64Encode (readBytes rf name) }

/-- The loop of `addChanges` over the status mapping, whose iteration order is
the order of the input list. -/
def collectChanges (rf : String → Except String (List Nat)) :
    List (String × FileStatus) → List FileAddition
  | [] => []
  | (name, fs) :: rest =>
      if qualifies fs then mkAddition rf name :: collectChanges rf rest
      else collectChanges rf rest

/-- `addChanges`: builds the change list and calls `os.Exit(0)` when it is
empty; `none` models that successful early exit. -/
def addChanges (rf : String → Except String (List Nat))
    (status : List (String × FileStatus)) : Option (List FileAddition) :=
  let cs := collectChanges rf status
  if cs.isEmpty then none else some cs

/-- `getMainOid`: builds the owner/name query variables (panicking on a
malformed repository identifier, modelled by `none`) and issues the query for
the repository id and the target oid of `refs/heads/main`; the oracle `resp`
is what the remote returned. -/
def getMainOid (repository : String)
    (resp : Except String (String × String)) :
    Option (ApiCall × Except String (String × String)) :=
  match splitRepo repository with
  | none => none
  | some (o, n) => some (ApiCall.getMainOidQ o n, resp)

/-- `CheckBranchExists`: builds the owner/name/branchName query variables
(panicking on a malformed repository identifier, modelled by `none`), issues
the ref query for `refs/heads/<branchName>`, and returns `(false, err)` on a
query error, `(name != "", nil)` otherwise. -/
def CheckBranchExists (repository branchName : String)
    (resp : Except String String) :
    Option (ApiCall × (Bool × Option String)) :=
  match splitRepo repository with
  | none => none
  | some (o, n) =>
      some (ApiCall.checkBranchQ o n ("refs/heads/" ++ branchName),
        match resp with
        | .error e => (false, some e)
        | .ok refName => (decide (refName ≠ ""), none))

/-- The `githubv4.CreateRefInput` that `CreateBranch` submits. -/
def CreateBranch (opts : Opts) (repoId : String) (oid : String) :
    CreateRefInput :=
  { repositoryId := repoId, name := "refs/heads/" ++ opts.branchName,
    oid := oid }

/-- The `githubv4.CreateCommitOnBranchInput` that `DoCommit` submits:
repository and branch identification, message headline, the collected
additions, and `ExpectedHeadOid = revision.Hash().String()`. -/
def doCommitInput (changes : List FileAddition) (opts : Opts)
    (revisionHash : String) : CreateCommitOnBranchInput :=
  { repositoryNameWithOwner := opts.repository,
    branchName := opts.branchName,
    messageHeadline := opts.message,
    additions := changes,
    expectedHeadOid := revisionHash }

/-- The `githubv4.CreatePullRequestInput` that `CreatePullRequest` submits. -/
def CreatePullRequest (opts : Opts) (repoId : String) :
    CreatePullRequestInput :=
  { repositoryId := repoId, baseRefName := "main",
    headRefName := opts.branchName, title := opts.message }

/-- Oracle for the local git repository: what `openRepository`, `os.ReadFile`,
`repo.Head()`, `fetchRemote` and `repo.Reference(_, true)` return in this run.
`refOidLocal` is the tracking-reference store before any fetch; `refOidFetched`
is the store after a successful fetch. -/
structure GitEnv where
  openResult : Except String (List (String × FileStatus))
  readFile : String → Except String (List Nat)
  headOid : Except String String
  fetchResult : Except String Unit
  refOidLocal : String → Except String String
  refOidFetched : String → Except String String

/-- Oracle for the remote service: the response to each GraphQL round trip the
run may issue. -/
structure RemoteEnv where
  mainOidResp : Except String (String × String)
  refNameResp : Except String String
  createRefResp : Except String Unit
  commitResp : Except String Unit
  prResp : Except String Unit

/-- How a run of `main` ends: `exitZero` is the `os.Exit(0)` in `addChanges`,
`panicked` the index-out-of-range panic on a malformed repository identifier,
`fatal` a `log.Fatalf` (non-zero exit) tagged with its message prefix, and
`ok` normal completion. -/
inductive Outcome where
  | exitZero
  | panicked
  | fatal (stage : String)
  | ok
deriving DecidableEq, Repr

/-- The tail of `main` after the commit mutation: optionally open the pull
request. `pre` is the trace so far. -/
def afterCommit (r : RemoteEnv) (opts : Opts) (repoId : String)
    (pre : List ApiCall) : Outcome × List ApiCall :=
  if opts.pullRequest then
    match r.prResp with
    | .error _ =>
        (Outcome.fatal "unable to create PR",
         pre ++ [ApiCall.createPRM (CreatePullRequest opts repoId)])
    | .ok _ =>
        (Outcome.ok,
         pre ++ [ApiCall.createPRM (CreatePullRequest opts repoId)])
  else (Outcome.ok, pre)

/-- The commit submission step of `main`: `DoCommit` followed by the optional
pull request. -/
def submitPhase (r : RemoteEnv) (opts : Opts) (changes : List FileAddition)
    (repoId : String) (revisionHash : String) (pre : List ApiCall) :
    Outcome × List ApiCall :=
  let ci := doCommitInput changes opts revisionHash
  match r.commitResp with
  | .error _ => (Outcome.fatal "unable to commit", pre ++ [ApiCall.commitM ci])
  | .ok _ => afterCommit r opts repoId (pre ++ [ApiCall.commitM ci])

/-- The local tracking-reference store `repo.Reference` reads after
`fetchRemote` ran: refreshed when the fetch succeeded, the pre-fetch (possibly
stale) store when the fetch failed — the failure itself is only logged. -/
def refStoreAfterFetch (g : GitEnv) : String → Except String String :=
  match g.fetchResult with
  | .ok _ => g.refOidFetched
  | .error _ => g.refOidLocal

/-- The branch-dependent part of `main`: check branch existence, then either
create the branch and take `repo.Head()` as the revision, or (branch exists)
fetch — non-fatally — and resolve `refs/remotes/origin/<branch>`; finally
submit the commit. -/
def branchPhase (g : GitEnv) (r : RemoteEnv) (opts : Opts)
    (changes : List FileAddition) (oid : String) (repoId : String)
    (pre : List ApiCall) : Outcome × List ApiCall :=
  match CheckBranchExists opts.repository opts.branchName r.refNameResp with
  | none => (Outcome.panicked, pre)
  | some (q2, res) =>
      match res.2 with
      | some _ => (Outcome.fatal "unable to lookup branch", pre ++ [q2])
      | none =>
          if res.1 then
            match refStoreAfterFetch g ("refs/remotes/origin/" ++ opts.branchName) with
            | .error _ =>
                (Outcome.fatal "unable to find HEAD for branch", pre ++ [q2])
            | .ok h => submitPhase r opts changes repoId h (pre ++ [q2])
          else
            match r.createRefResp with
            | .error _ =>
                (Outcome.fatal "unable to create branch",
                 pre ++ [q2, ApiCall.createRefM (CreateBranch opts repoId oid)])
            | .ok _ =>
                match g.headOid with
                | .error _ =>
                    (Outcome.fatal "unable to find HEAD revision",
                     pre ++ [q2,
                       ApiCall.createRefM (CreateBranch opts repoId oid)])
                | .ok h =>
                    submitPhase r opts changes repoId h
                      (pre ++ [q2,
                        ApiCall.createRefM (CreateBranch opts repoId oid)])

/-- `main` after flag parsing: open the repository and collect changes, look
up the main oid and repository id, then run the branch phase. Returns the
outcome and the ordered trace of remote API calls issued. -/
def mainRun (g : GitEnv) (r : RemoteEnv) (opts : Opts) :
    Outcome × List ApiCall :=
  match g.openResult with
  | .error _ => (Outcome.fatal "unable to open repository", [])
  | .ok status =>
      match addChanges g.readFile status with
      | none => (Outcome.exitZero, [])
      | some changes =>
          match getMainOid opts.repository r.mainOidResp with
          | none => (Outcome.panicked, [])
          | some (q1, res1) =>
              match res1 with
              | .error _ => (Outcome.fatal "unable to lookup oid", [q1])
              | .ok (oid, repoId) =>
                  branchPhase g r opts changes oid repoId [q1]

/-- The commit mutation inputs occurring in a trace, in order. -/
def commitInputs (t : List ApiCall) : List CreateCommitOnBranchInput :=
  t.filterMap fun c =>
    match c with
    | ApiCall.commitM i => some i
    | _ => none

/-- The branch-creation mutation inputs occurring in a trace, in order. -/
def refInputs (t : List ApiCall) : List CreateRefInput :=
  t.filterMap fun c =>
    match c with
    | ApiCall.createRefM i => some i
    | _ => none

/-- A read oracle that always yields the two bytes of "hi". -/
def readFileA : String → Except String (List Nat) := fun _ => Except.ok [104, 105]

/-- A one-entry status: `a.txt` staged as added. -/
def stA : List (String × FileStatus) :=
  [("a.txt", { staging := StatusCode.added, worktree := StatusCode.unmodified })]

/-- The change list `addChanges` produces from `stA` under `readFileA`. -/
def chA : List FileAddition := [{ path := "a.txt", contents := ['a', 'G', 'k', '='] }]

/-- A local repository oracle where every local operation succeeds; the local
HEAD is at `h1`, and the tracking references resolve to `L1` before and `F1`
after a fetch. -/
def gitEnvA : GitEnv :=
  { openResult := Except.ok stA, readFile := readFileA,
    headOid := Except.ok "h1", fetchResult := Except.ok (),
    refOidLocal := fun _ => Except.ok "L1",
    refOidFetched := fun _ => Except.ok "F1" }

/-- A remote oracle: main tip `m1`, repository id `rid1`, target branch absent,
all mutations succeeding. -/
def remoteEnvA : RemoteEnv :=
  { mainOidResp := Except.ok ("m1", "rid1"), refNameResp := Except.ok "",
    createRefResp := Except.ok (), commitResp := Except.ok (),
    prResp := Except.ok () }

/-- Options with the pull-request flag set. -/
def optsA : Opts :=
  { repository := "o/r", branchName := "feat", message := "msg",
    pullRequest := true }

/-- The same options with the pull-request flag clear. -/
def optsB : Opts :=
  { repository := "o/r", branchName := "feat", message := "msg",
    pullRequest := false }

/-- `gitEnvA` with a failing fetch. -/
def gitEnvB : GitEnv := { gitEnvA with fetchResult := Except.error "network down" }

/-- `remoteEnvA` with the target branch present (non-empty ref name). -/
def remoteEnvB : RemoteEnv := { remoteEnvA with refNameResp := Except.ok "feat" }

/-- A one-entry status consisting only of a deleted path. -/
def stD : List (String × FileStatus) :=
  [("gone.txt", { staging := StatusCode.deleted, worktree := StatusCode.deleted })]

/-- `gitEnvA` opening onto the deletion-only status `stD`. -/
def gitEnvD : GitEnv := { gitEnvA with openResult := Except.ok stD }

/-- A read oracle that fails on `x.txt` and yields "hi" elsewhere. -/
def readFileC : String → Except String (List Nat) :=
  fun n => if n = "x.txt" then Except.error "boom" else Except.ok [104, 105]

/-- A two-entry status: `a.txt` modified in the worktree, `x.txt` staged as
modified. -/
def stC : List (String × FileStatus) :=
  [("a.txt", { staging := StatusCode.unmodified, worktree := StatusCode.modified }),
   ("x.txt", { staging := StatusCode.modified, worktree := StatusCode.unmodified })]

theorem goSplitSlash_no_slash (s : List Char) (h : ¬ ('/' ∈ s)) :
    goSplitSlash s = [s] := by
  induction s with
  | nil => rfl
  | cons c rest ih =>
      have hc : ¬ (c = '/') := fun hc => h (by simp [hc])
      have hr : ¬ ('/' ∈ rest) := fun hm => h (List.mem_cons_of_mem _ hm)
      unfold goSplitSlash
      rw [if_neg hc, ih hr]

theorem goSplitSlash_append (a b : List Char) (ha : ¬ ('/' ∈ a)) :
    goSplitSlash (a ++ '/' :: b) = a :: goSplitSlash b := by
  induction a with
  | nil => simp [goSplitSlash]
  | cons c rest ih =>
      have hc : ¬ (c = '/') := fun hc => ha (by simp [hc])
      have hr : ¬ ('/' ∈ rest) := fun hm => ha (List.mem_cons_of_mem _ hm)
      show goSplitSlash (c :: (rest ++ '/' :: b)) = (c :: rest) :: goSplitSlash b
      rw [goSplitSlash, if_neg hc, ih hr]

theorem splitRepo_no_slash (s : String) (h : ¬ ('/' ∈ s.data)) :
    splitRepo s = none := by
  unfold splitRepo
  rw [goSplitSlash_no_slash s.data h]
  rfl

theorem splitRepo_pair (a b : List Char) (ha : ¬ ('/' ∈ a))
    (hb : ¬ ('/' ∈ b)) :
    splitRepo (String.mk (a ++ '/' :: b)) = some (a, b) := by
  unfold splitRepo
  have hdata : (String.mk (a ++ '/' :: b)).data = a ++ '/' :: b := rfl
  rw [hdata, goSplitSlash_append a b ha, goSplitSlash_no_slash b hb]
  rfl

theorem mkAddition_path (rf : String → Except String (List Nat))
    (name : String) : (mkAddition rf name).path = name := rfl

theorem collectChanges_eq_map_filter (rf : String → Except String (List Nat))
    (st : List (String × FileStatus)) :
    collectChanges rf st =
      (st.filter (fun pfs => qualifies pfs.2)).map
        (fun pfs => mkAddition rf pfs.1) := by
  induction st with
  | nil => rfl
  | cons hd tl ih =>
      obtain ⟨name, fs⟩ := hd
      by_cases hq : qualifies fs
      · simp [collectChanges, List.filter_cons, hq, ih]
      · simp [collectChanges, List.filter_cons, hq, ih]

theorem collectChanges_eq_nil (rf : String → Except String (List Nat))
    (st : List (String × FileStatus))
    (h : ∀ pfs ∈ st, qualifies pfs.2 = false) :
    collectChanges rf st = [] := by
  rw [collectChanges_eq_map_filter]
  have : st.filter (fun pfs => qualifies pfs.2) = [] := by
    rw [List.filter_eq_nil_iff]
    intro pfs hmem
    simp [h pfs hmem]
  rw [this]
  rfl

theorem path_mem_collectChanges (rf : String → Except String (List Nat))
    (st : List (String × FileStatus)) (p : String) :
    (∃ a ∈ collectChanges rf st, a.path = p) ↔
      ∃ fs, (p, fs) ∈ st ∧ qualifies fs = true := by
  rw [collectChanges_eq_map_filter]
  constructor
  · rintro ⟨a, ha, hp⟩
    obtain ⟨pfs, hmem, rfl⟩ := List.mem_map.mp ha
    obtain ⟨hst, hq⟩ := List.mem_filter.mp hmem
    refine ⟨pfs.2, ?_, hq⟩
    rw [mkAddition_path] at hp
    rw [← hp]
    exact hst
  · rintro ⟨fs, hmem, hq⟩
    refine ⟨mkAddition rf p, List.mem_map.mpr ⟨(p, fs), List.mem_filter.mpr ⟨hmem, hq⟩, rfl⟩, rfl⟩

theorem collectChanges_countP_of_not_mem
    (rf : String → Except String (List Nat))
    (st : List (String × FileStatus)) (p : String)
    (h : p ∉ st.map Prod.fst) :
    (collectChanges rf st).countP (fun a => a.path == p) = 0 := by
  induction st with
  | nil => rfl
  | cons hd tl ih =>
      obtain ⟨name, fs⟩ := hd
      have hname : ¬ (name = p) := by
        intro hcon
        exact h (by simp [hcon])
      have htl : p ∉ tl.map Prod.fst := fun hm => h (by simp [hm])
      by_cases hq : qualifies fs
      · simp [collectChanges, hq, List.countP_cons, mkAddition_path, hname, ih htl]
      · simp [collectChanges, hq, ih htl]

theorem collectChanges_countP_one (rf : String → Except String (List Nat))
    (st : List (String × FileStatus)) (p : String) (fs : FileStatus)
    (hnd : (st.map Prod.fst).Nodup) (hmem : (p, fs) ∈ st)
    (hq : qualifies fs = true) :
    (collectChanges rf st).countP (fun a => a.path == p) = 1 := by
  induction st with
  | nil => cases hmem
  | cons hd tl ih =>
      obtain ⟨name, gs⟩ := hd
      have hnd' : (tl.map Prod.fst).Nodup := (List.nodup_cons.mp (by simpa using hnd)).2
      have hnotm : name ∉ tl.map Prod.fst := (List.nodup_cons.mp (by simpa using hnd)).1
      rcases List.mem_cons.mp hmem with heq | htl
      · injection heq with h1 h2
        have hq' : qualifies gs = true := by
          rw [← h2]
          exact hq
        have hnotp : p ∉ tl.map Prod.fst := by
          rw [h1]
          exact hnotm
        simp [collectChanges, hq', List.countP_cons, mkAddition_path, h1.symm,
          collectChanges_countP_of_not_mem rf tl p hnotp]
      · have hname : ¬ (name = p) := by
          intro hcon
          apply hnotm
          rw [hcon]
          exact List.mem_map.mpr ⟨(p, fs), htl, rfl⟩
        by_cases hqg : qualifies gs
        · simp [collectChanges, hqg, List.countP_cons, mkAddition_path, hname,
            ih hnd' htl]
        · simp [collectChanges, hqg, ih hnd' htl]

theorem collectChanges_contents (rf : String → Except String (List Nat))
    (st : List (String × FileStatus)) (a : FileAddition)
    (ha : a ∈ collectChanges rf st) :
    a.contents = base64Encode (readBytes rf a.path) := by
  rw [collectChanges_eq_map_filter] at ha
  obtain ⟨pfs, _, rfl⟩ := List.mem_map.mp ha
  rfl

theorem commitInputs_append (s t : List ApiCall) :
    commitInputs (s ++ t) = commitInputs s ++ commitInputs t :=
  List.filterMap_append s t _

theorem refInputs_append (s t : List ApiCall) :
    refInputs (s ++ t) = refInputs s ++ refInputs t :=
  List.filterMap_append s t _

theorem commitInputs_afterCommit (r : RemoteEnv) (o : Opts) (rid : String)
    (pre : List ApiCall) :
    commitInputs (afterCommit r o rid pre).2 = commitInputs pre := by
  unfold afterCommit
  by_cases hp : o.pullRequest
  · cases hresp : r.prResp <;> simp [hp, commitInputs_append, commitInputs]
  · simp [hp]

theorem commitInputs_submitPhase (r : RemoteEnv) (o : Opts)
    (ch : List FileAddition) (rid h : String) (pre : List ApiCall) :
    commitInputs (submitPhase r o ch rid h pre).2 =
      commitInputs pre ++ [doCommitInput ch o h] := by
  unfold submitPhase
  cases hc : r.commitResp with
  | error e => simp [commitInputs_append, commitInputs]
  | ok u =>
      rw [commitInputs_afterCommit, commitInputs_append]
      simp [commitInputs]

theorem refInputs_afterCommit (r : RemoteEnv) (o : Opts) (rid : String)
    (pre : List ApiCall) :
    refInputs (afterCommit r o rid pre).2 = refInputs pre := by
  unfold afterCommit
  by_cases hp : o.pullRequest
  · cases hresp : r.prResp <;> simp [hp, refInputs_append, refInputs]
  · simp [hp]

theorem refInputs_submitPhase (r : RemoteEnv) (o : Opts)
    (ch : List FileAddition) (rid h : String) (pre : List ApiCall) :
    refInputs (submitPhase r o ch rid h pre).2 = refInputs pre := by
  unfold submitPhase
  cases hc : r.commitResp with
  | error e => simp [refInputs_append, refInputs]
  | ok u =>
      rw [refInputs_afterCommit, refInputs_append]
      simp [refInputs]

theorem checkBranch_shape (repo branch : String) (resp : Except String String)
    (q2 : ApiCall) (res : Bool × Option String)
    (h : CheckBranchExists repo branch resp = some (q2, res)) :
    ∃ ow nm, q2 = ApiCall.checkBranchQ ow nm ("refs/heads/" ++ branch) := by
  unfold CheckBranchExists at h
  cases hs : splitRepo repo with
  | none => rw [hs] at h; cases h
  | some p =>
      obtain ⟨ow, nm⟩ := p
      rw [hs] at h
      refine ⟨ow, nm, ?_⟩
      have := congrArg (fun x => Option.map Prod.fst x) h
      simpa using this.symm

theorem checkBranch_false (repo branch : String) (resp : Except String String)
    (q2 : ApiCall)
    (h : CheckBranchExists repo branch resp = some (q2, (false, none))) :
    resp = Except.ok "" := by
  unfold CheckBranchExists at h
  cases hs : splitRepo repo with
  | none => rw [hs] at h; cases h
  | some p =>
      obtain ⟨ow, nm⟩ := p
      rw [hs] at h
      cases hresp : resp with
      | error e =>
          rw [hresp] at h
          simp at h
      | ok refName =>
          rw [hresp] at h
          simp at h
          simp [h.2]

theorem pr_mem_afterCommit (r : RemoteEnv) (o : Opts) (rid : String)
    (pre : List ApiCall) (pi : CreatePullRequestInput) :
    ApiCall.createPRM pi ∈ (afterCommit r o rid pre).2 ↔
      (ApiCall.createPRM pi ∈ pre ∨
        (o.pullRequest = true ∧ pi = CreatePullRequest o rid)) := by
  unfold afterCommit
  by_cases hp : o.pullRequest
  · cases hresp : r.prResp <;> simp [hp]
  · simp [hp]

theorem pr_mem_submitPhase (r : RemoteEnv) (o : Opts)
    (ch : List FileAddition) (rid h : String) (pre : List ApiCall)
    (pi : CreatePullRequestInput) :
    ApiCall.createPRM pi ∈ (submitPhase r o ch rid h pre).2 ↔
      (ApiCall.createPRM pi ∈ pre ∨
        (r.commitResp = Except.ok () ∧ o.pullRequest = true ∧
          pi = CreatePullRequest o rid)) := by
  unfold submitPhase
  cases hc : r.commitResp with
  | error e => simp [hc]
  | ok u =>
      cases u
      simp [pr_mem_afterCommit, hc]

theorem ref_mem_afterCommit (r : RemoteEnv) (o : Opts) (rid : String)
    (pre : List ApiCall) (ci : CreateRefInput)
    (h : ApiCall.createRefM ci ∈ (afterCommit r o rid pre).2) :
    ApiCall.createRefM ci ∈ pre := by
  unfold afterCommit at h
  by_cases hp : o.pullRequest
  · rw [if_pos hp] at h
    cases hresp : r.prResp <;> rw [hresp] at h <;> simp at h <;> exact h
  · rwa [if_neg hp] at h

theorem ref_mem_submitPhase (r : RemoteEnv) (o : Opts)
    (ch : List FileAddition) (rid h2 : String) (pre : List ApiCall)
    (ci : CreateRefInput)
    (h : ApiCall.createRefM ci ∈ (submitPhase r o ch rid h2 pre).2) :
    ApiCall.createRefM ci ∈ pre := by
  unfold submitPhase at h
  cases hc : r.commitResp with
  | error e =>
      rw [hc] at h
      simp at h
      exact h
  | ok u =>
      rw [hc] at h
      have := ref_mem_afterCommit r o rid _ ci h
      simp at this
      exact this

theorem getMainOid_shape (repo : String)
    (resp : Except String (String × String)) (q1 : ApiCall)
    (res1 : Except String (String × String))
    (h : getMainOid repo resp = some (q1, res1)) :
    ∃ ow nm, q1 = ApiCall.getMainOidQ ow nm ∧ res1 = resp := by
  unfold getMainOid at h
  cases hs : splitRepo repo with
  | none => rw [hs] at h; cases h
  | some p =>
      obtain ⟨ow, nm⟩ := p
      rw [hs] at h
      simp only [Option.some.injEq, Prod.mk.injEq] at h
      exact ⟨ow, nm, h.1.symm, h.2.symm⟩

theorem pr_mem_branchPhase (g : GitEnv) (r : RemoteEnv) (o : Opts)
    (ch : List FileAddition) (oid rid : String) (pre : List ApiCall)
    (pi : CreatePullRequestInput)
    (h : ApiCall.createPRM pi ∈ (branchPhase g r o ch oid rid pre).2) :
    ApiCall.createPRM pi ∈ pre ∨
      (o.pullRequest = true ∧ pi = CreatePullRequest o rid) := by
  unfold branchPhase at h
  split at h
  next heq => exact Or.inl h
  next q2 res heq =>
    obtain ⟨ow, nm, hq2⟩ := checkBranch_shape _ _ _ _ _ heq
    subst hq2
    split at h
    next e heq2 =>
      simp at h
      exact Or.inl h
    next heq2 =>
      split at h
      · split at h
        next e2 hl =>
          simp at h
          exact Or.inl h
        next h2 hl =>
          rcases (pr_mem_submitPhase r o ch rid h2 _ pi).mp h with hmem | hrest
          · simp at hmem
            exact Or.inl hmem
          · exact Or.inr ⟨hrest.2.1, hrest.2.2⟩
      · split at h
        next e3 hcr =>
          simp at h
          exact Or.inl h
        next hcr =>
          split at h
          next e4 hh =>
            simp at h
            exact Or.inl h
          next h2 hh =>
            rcases (pr_mem_submitPhase r o ch rid h2 _ pi).mp h with hmem | hrest
            · simp at hmem
              exact Or.inl hmem
            · exact Or.inr ⟨hrest.2.1, hrest.2.2⟩

theorem ref_mem_branchPhase (g : GitEnv) (r : RemoteEnv) (o : Opts)
    (ch : List FileAddition) (oid rid : String) (pre : List ApiCall)
    (ci : CreateRefInput)
    (h : ApiCall.createRefM ci ∈ (branchPhase g r o ch oid rid pre).2) :
    ApiCall.createRefM ci ∈ pre ∨
      (r.refNameResp = Except.ok "" ∧ ci = CreateBranch o rid oid) := by
  unfold branchPhase at h
  split at h
  next heq => exact Or.inl h
  next q2 res heq =>
    obtain ⟨ow, nm, hq2⟩ := checkBranch_shape _ _ _ _ _ heq
    subst hq2
    split at h
    next e heq2 =>
      simp at h
      exact Or.inl h
    next heq2 =>
      split at h
      next hb =>
        split at h
        next e2 hl =>
          simp at h
          exact Or.inl h
        next h2 hl =>
          have := ref_mem_submitPhase r o ch rid h2 _ ci h
          simp at this
          exact Or.inl this
      next hb =>
        have hres : res = (false, none) := by
          have hb2 : res.1 = false := by
            cases hres1 : res.1
            · rfl
            · exact absurd hres1 hb
          exact Prod.ext hb2 heq2
        rw [hres] at heq
        have hfalse : r.refNameResp = Except.ok "" :=
          checkBranch_false _ _ _ _ heq
        split at h
        next e3 hcr =>
          simp at h
          rcases h with hmem | hci
          · exact Or.inl hmem
          · exact Or.inr ⟨hfalse, hci⟩
        next hcr =>
          split at h
          next e4 hh =>
            simp at h
            rcases h with hmem | hci
            · exact Or.inl hmem
            · exact Or.inr ⟨hfalse, hci⟩
          next h2 hh =>
            have := ref_mem_submitPhase r o ch rid h2 _ ci h
            simp at this
            rcases this with hmem | hci
            · exact Or.inl hmem
            · exact Or.inr ⟨hfalse, hci⟩

theorem commitOk_pr_mem_branchPhase (g : GitEnv) (r : RemoteEnv) (o : Opts)
    (ch : List FileAddition) (oid rid : String) (pre : List ApiCall)
    (ci : CreateCommitOnBranchInput)
    (hc : r.commitResp = Except.ok ()) (hp : o.pullRequest = true) :
    ApiCall.commitM ci ∈ (branchPhase g r o ch oid rid pre).2 →
      (ApiCall.commitM ci ∈ pre ∨
        ApiCall.createPRM (CreatePullRequest o rid) ∈
          (branchPhase g r o ch oid rid pre).2) := by
  unfold branchPhase
  split
  next heq => exact fun h => Or.inl h
  next q2 res heq =>
    obtain ⟨ow, nm, hq2⟩ := checkBranch_shape _ _ _ _ _ heq
    subst hq2
    split
    next e heq2 =>
      intro h
      simp at h
      exact Or.inl h
    next heq2 =>
      split
      · split
        next e2 hl =>
          intro h
          simp at h
          exact Or.inl h
        next h2 hl =>
          intro h
          exact Or.inr
            ((pr_mem_submitPhase r o ch rid h2 _ _).mpr (Or.inr ⟨hc, hp, rfl⟩))
      · split
        next e3 hcr =>
          intro h
          simp at h
          exact Or.inl h
        next hcr =>
          split
          next e4 hh =>
            intro h
            simp at h
            exact Or.inl h
          next h2 hh =>
            intro h
            exact Or.inr
              ((pr_mem_submitPhase r o ch rid h2 _ _).mpr (Or.inr ⟨hc, hp, rfl⟩))

theorem pr_mem_mainRun (g : GitEnv) (r : RemoteEnv) (o : Opts)
    (pi : CreatePullRequestInput)
    (h : ApiCall.createPRM pi ∈ (mainRun g r o).2) :
    o.pullRequest = true ∧ ∃ rid, pi = CreatePullRequest o rid := by
  unfold mainRun at h
  split at h
  next heq => simp at h
  next st heq =>
    split at h
    next heq2 => simp at h
    next ch heq2 =>
      split at h
      next heq3 => simp at h
      next q1 res1 heq3 =>
        obtain ⟨ow, nm, hq1, hres⟩ := getMainOid_shape _ _ _ _ heq3
        subst hq1
        subst hres
        split at h
        next e heq4 => simp at h
        next oid rid heq4 =>
          rcases pr_mem_branchPhase g r o ch oid rid _ pi h with hmem | hpr
          · simp at hmem
          · exact ⟨hpr.1, rid, hpr.2⟩

theorem ref_mem_mainRun (g : GitEnv) (r : RemoteEnv) (o : Opts)
    (ci : CreateRefInput)
    (h : ApiCall.createRefM ci ∈ (mainRun g r o).2) :
    r.refNameResp = Except.ok "" ∧
      ci.name = "refs/heads/" ++ o.branchName ∧
      ∃ rid, r.mainOidResp = Except.ok (ci.oid, rid) := by
  unfold mainRun at h
  split at h
  next heq => simp at h
  next st heq =>
    split at h
    next heq2 => simp at h
    next ch heq2 =>
      split at h
      next heq3 => simp at h
      next q1 res1 heq3 =>
        obtain ⟨ow, nm, hq1, hres⟩ := getMainOid_shape _ _ _ _ heq3
        subst hq1
        subst hres
        split at h
        next e heq4 => simp at h
        next oid rid heq4 =>
          rcases ref_mem_branchPhase g r o ch oid rid _ ci h with hmem | hci
          · simp at hmem
          · refine ⟨hci.1, ?_, rid, ?_⟩
            · rw [hci.2]
              rfl
            · rw [hci.2]
              exact heq4

theorem commitOk_pr_mem_mainRun (g : GitEnv) (r : RemoteEnv) (o : Opts)
    (ci : CreateCommitOnBranchInput)
    (hc : r.commitResp = Except.ok ()) (hp : o.pullRequest = true) :
    ApiCall.commitM ci ∈ (mainRun g r o).2 →
      ∃ rid, ApiCall.createPRM (CreatePullRequest o rid) ∈ (mainRun g r o).2 := by
  unfold mainRun
  split
  next heq => intro h; simp at h
  next st heq =>
    split
    next heq2 => intro h; simp at h
    next ch heq2 =>
      split
      next heq3 => intro h; simp at h
      next q1 res1 heq3 =>
        obtain ⟨ow, nm, hq1, hres⟩ := getMainOid_shape _ _ _ _ heq3
        subst hq1
        subst hres
        split
        next e heq4 => intro h; simp at h
        next oid rid heq4 =>
          intro h
          rcases commitOk_pr_mem_branchPhase g r o ch oid rid _ ci hc hp h with
            hmem | hpr
          · simp at hmem
          · exact ⟨rid, hpr⟩

theorem mainRun_eq_branchPhase (g : GitEnv) (r : RemoteEnv) (o : Opts)
    (st : List (String × FileStatus)) (ch : List FileAddition)
    (ow nm : List Char) (oid rid : String)
    (hopen : g.openResult = Except.ok st)
    (hch : addChanges g.readFile st = some ch)
    (hsplit : splitRepo o.repository = some (ow, nm))
    (hmain : r.mainOidResp = Except.ok (oid, rid)) :
    mainRun g r o = branchPhase g r o ch oid rid [ApiCall.getMainOidQ ow nm] := by
  simp only [mainRun, getMainOid, hopen, hch, hsplit, hmain]

theorem branchPhase_eq_newBranch (g : GitEnv) (r : RemoteEnv) (o : Opts)
    (ch : List FileAddition) (oid rid : String) (pre : List ApiCall)
    (ow nm : List Char) (hh : String)
    (hsplit : splitRepo o.repository = some (ow, nm))
    (hbr : r.refNameResp = Except.ok "")
    (hcr : r.createRefResp = Except.ok ())
    (hhead : g.headOid = Except.ok hh) :
    branchPhase g r o ch oid rid pre =
      submitPhase r o ch rid hh
        (pre ++ [ApiCall.checkBranchQ ow nm ("refs/heads/" ++ o.branchName),
                 ApiCall.createRefM (CreateBranch o rid oid)]) := by
  have hd : (decide (("" : String) ≠ "")) = false := rfl
  simp only [branchPhase, CheckBranchExists, hsplit, hbr, hcr, hhead, hd,
    Bool.false_eq_true, if_false]

theorem branchPhase_eq_createFail (g : GitEnv) (r : RemoteEnv) (o : Opts)
    (ch : List FileAddition) (oid rid : String) (pre : List ApiCall)
    (ow nm : List Char) (e : String)
    (hsplit : splitRepo o.repository = some (ow, nm))
    (hbr : r.refNameResp = Except.ok "")
    (hcr : r.createRefResp = Except.error e) :
    branchPhase g r o ch oid rid pre =
      (Outcome.fatal "unable to create branch",
       pre ++ [ApiCall.checkBranchQ ow nm ("refs/heads/" ++ o.branchName),
               ApiCall.createRefM (CreateBranch o rid oid)]) := by
  have hd : (decide (("" : String) ≠ "")) = false := rfl
  simp only [branchPhase, CheckBranchExists, hsplit, hbr, hcr, hd,
    Bool.false_eq_true, if_false]

theorem branchPhase_eq_existing_ok (g : GitEnv) (r : RemoteEnv) (o : Opts)
    (ch : List FileAddition) (oid rid : String) (pre : List ApiCall)
    (ow nm : List Char) (refName h2 : String)
    (hsplit : splitRepo o.repository = some (ow, nm))
    (hbr : r.refNameResp = Except.ok refName) (hne : refName ≠ "")
    (hl : refStoreAfterFetch g ("refs/remotes/origin/" ++ o.branchName) =
      Except.ok h2) :
    branchPhase g r o ch oid rid pre =
      submitPhase r o ch rid h2
        (pre ++ [ApiCall.checkBranchQ ow nm ("refs/heads/" ++ o.branchName)]) := by
  simp only [branchPhase, CheckBranchExists, hsplit, hbr, decide_eq_true hne,
    if_true, hl]

theorem branchPhase_eq_existing_err (g : GitEnv) (r : RemoteEnv) (o : Opts)
    (ch : List FileAddition) (oid rid : String) (pre : List ApiCall)
    (ow nm : List Char) (refName e2 : String)
    (hsplit : splitRepo o.repository = some (ow, nm))
    (hbr : r.refNameResp = Except.ok refName) (hne : refName ≠ "")
    (hl : refStoreAfterFetch g ("refs/remotes/origin/" ++ o.branchName) =
      Except.error e2) :
    branchPhase g r o ch oid rid pre =
      (Outcome.fatal "unable to find HEAD for branch",
       pre ++ [ApiCall.checkBranchQ ow nm ("refs/heads/" ++ o.branchName)]) := by
  simp only [branchPhase, CheckBranchExists, hsplit, hbr, decide_eq_true hne,
    if_true, hl]

/-- Claim C2: for every working-tree status with zero qualifying paths, the
change-collection step terminates the process successfully (modelled by
`Outcome.exitZero`) and the trace of remote API calls is empty. -/
theorem noChanges_no_remote_calls (g : GitEnv) (r : RemoteEnv) (opts : Opts)
    (st : List (String × FileStatus))
    (hopen : g.openResult = Except.ok st)
    (hnone : ∀ pfs ∈ st, qualifies pfs.2 = false) :
    mainRun g r opts = (Outcome.exitZero, []) := by
  have hc : collectChanges g.readFile st = [] :=
    collectChanges_eq_nil g.readFile st hnone
  unfold mainRun
  rw [hopen]
  simp [addChanges, hc]

/-- Witness for C2: a status holding only a deleted path yields a successful
early exit with no remote call. -/
theorem noChanges_no_remote_calls_witness :
    mainRun gitEnvD remoteEnvA optsB = (Outcome.exitZero, []) :=
  noChanges_no_remote_calls gitEnvD remoteEnvA optsB stD rfl (by decide)

/-- Claim C3: a path qualifies iff its worktree state is modified, or its
staging state is added, or its staging state is modified; a path carrying only
deletion or rename change kinds is never selected; and a path occurs in the
collected changes iff it has a qualifying status entry. -/
theorem changeSelection_rule :
    (∀ fs : FileStatus, qualifies fs = true ↔
        (fs.worktree = StatusCode.modified ∨ fs.staging = StatusCode.added ∨
          fs.staging = StatusCode.modified)) ∧
    (∀ fs : FileStatus,
        (fs.staging = StatusCode.unmodified ∨ fs.staging = StatusCode.deleted ∨
          fs.staging = StatusCode.renamed) →
        (fs.worktree = StatusCode.unmodified ∨ fs.worktree = StatusCode.deleted ∨
          fs.worktree = StatusCode.renamed) →
        qualifies fs = false) ∧
    (∀ (rf : String → Except String (List Nat))
        (st : List (String × FileStatus)) (p : String),
        (∃ a ∈ collectChanges rf st, a.path = p) ↔
          ∃ fs, (p, fs) ∈ st ∧ qualifies fs = true) := by
  refine ⟨?_, ?_, path_mem_collectChanges⟩
  · intro fs
    cases fs with
    | mk s w => cases s <;> cases w <;> decide
  · intro fs
    cases fs with
    | mk s w => cases s <;> cases w <;> decide

/-- Witness for C3: a purely deleted path is not selected. -/
theorem changeSelection_rule_witness :
    qualifies { staging := StatusCode.deleted, worktree := StatusCode.deleted } = false :=
  changeSelection_rule.2.1
    { staging := StatusCode.deleted, worktree := StatusCode.deleted }
    (Or.inr (Or.inl rfl)) (Or.inr (Or.inl rfl))

/-- Claim C4: the branch-existence check queries `refs/heads/<branchName>`,
returns true iff the response carries a non-empty ref name, and returns false
together with the error when the query itself errors. -/
theorem checkBranch_iff (repo branch : String) (ow nm : List Char)
    (resp : Except String String)
    (hsplit : splitRepo repo = some (ow, nm)) :
    (∀ refName, resp = Except.ok refName →
        ∃ b, CheckBranchExists repo branch resp =
            some (ApiCall.checkBranchQ ow nm ("refs/heads/" ++ branch),
              (b, none)) ∧
          (b = true ↔ refName ≠ "")) ∧
    (∀ e, resp = Except.error e →
        CheckBranchExists repo branch resp =
          some (ApiCall.checkBranchQ ow nm ("refs/heads/" ++ branch),
            (false, some e))) := by
  constructor
  · intro refName hresp
    subst hresp
    refine ⟨decide (refName ≠ ""), ?_, by simp⟩
    unfold CheckBranchExists
    rw [hsplit]
  · intro e hresp
    subst hresp
    unfold CheckBranchExists
    rw [hsplit]

/-- Witness for C4: a run against a remote reporting ref name "feat" returns
true, in the shape the theorem states. -/
theorem checkBranch_iff_witness :
    ∃ b, CheckBranchExists "o/r" "feat" (Except.ok "feat") =
        some (ApiCall.checkBranchQ ['o'] ['r'] "refs/heads/feat", (b, none)) ∧
      (b = true ↔ "feat" ≠ "") :=
  (checkBranch_iff "o/r" "feat" ['o'] ['r'] (Except.ok "feat") (by decide)).1
    "feat" rfl

/-- Claim C7: a repository identifier without the '/' separator makes both
remote lookups fail with the index-out-of-range panic (modelled by `none`)
rather than a clean fatal diagnostic, while an identifier with exactly one '/'
splits into owner and name around it. -/
theorem malformed_repository_panics :
    (∀ (s : String) (resp : Except String (String × String)),
        ¬ ('/' ∈ s.data) → getMainOid s resp = none) ∧
    (∀ (s branch : String) (resp : Except String String),
        ¬ ('/' ∈ s.data) → CheckBranchExists s branch resp = none) ∧
    (∀ (a b : List Char) (resp : Except String (String × String)),
        ¬ ('/' ∈ a) → ¬ ('/' ∈ b) →
          getMainOid (String.mk (a ++ '/' :: b)) resp =
            some (ApiCall.getMainOidQ a b, resp)) := by
  refine ⟨?_, ?_, ?_⟩
  · intro s resp h
    unfold getMainOid
    rw [splitRepo_no_slash s h]
  · intro s branch resp h
    unfold CheckBranchExists
    rw [splitRepo_no_slash s h]
  · intro a b resp ha hb
    unfold getMainOid
    rw [splitRepo_pair a b ha hb]

/-- Witness for C7: the identifier "or" has no separator and the resolution
step panics; "o/r" splits into owner "o" and name "r". -/
theorem malformed_repository_panics_witness :
    getMainOid "or" (Except.ok ("m1", "rid1")) = none ∧
    getMainOid (String.mk (['o'] ++ '/' :: ['r'])) (Except.ok ("m1", "rid1")) =
      some (ApiCall.getMainOidQ ['o'] ['r'], Except.ok ("m1", "rid1")) :=
  ⟨malformed_repository_panics.1 "or" (Except.ok ("m1", "rid1")) (by decide),
   malformed_repository_panics.2.2 ['o'] ['r'] (Except.ok ("m1", "rid1"))
     (by decide) (by decide)⟩

/-- Claim C8: each qualifying path contributes exactly one entry to the
collected ChangeSet, whose content is the base64 encoding of the bytes read
for that path; a failed read is swallowed and the entry carries the base64
encoding of empty content. -/
theorem changeSet_content_per_path (rf : String → Except String (List Nat))
    (st : List (String × FileStatus)) (p : String) (fs : FileStatus)
    (hnd : (st.map Prod.fst).Nodup) (hmem : (p, fs) ∈ st)
    (hq : qualifies fs = true) :
    (collectChanges rf st).countP (fun a => a.path == p) = 1 ∧
    (∀ a ∈ collectChanges rf st, a.path = p →
        a.contents = base64Encode (readBytes rf p)) ∧
    (∀ e, rf p = Except.error e →
        ∀ a ∈ collectChanges rf st, a.path = p →
          a.contents = base64Encode []) := by
  refine ⟨collectChanges_countP_one rf st p fs hnd hmem hq, ?_, ?_⟩
  · intro a ha hp
    rw [← hp]
    exact collectChanges_contents rf st a ha
  · intro e he a ha hp
    have := collectChanges_contents rf st a ha
    rw [hp] at this
    rw [this]
    unfold readBytes
    rw [he]

/-- Witness for C8: with `x.txt` staged as modified and its read failing, the
ChangeSet holds exactly one `x.txt` entry whose content encodes nothing. -/
theorem changeSet_content_per_path_witness :
    (collectChanges readFileC stC).countP (fun a => a.path == "x.txt") = 1 ∧
    (∀ a ∈ collectChanges readFileC stC, a.path = "x.txt" →
        a.contents = base64Encode (readBytes readFileC "x.txt")) ∧
    (∀ e, readFileC "x.txt" = Except.error e →
        ∀ a ∈ collectChanges readFileC stC, a.path = "x.txt" →
          a.contents = base64Encode []) :=
  changeSet_content_per_path readFileC stC "x.txt"
    { staging := StatusCode.modified, worktree := StatusCode.unmodified }
    (by decide) (by decide) (by decide)

/-- Counterexample for C1: with the target branch absent, local HEAD at `h1`
and the remote default-branch tip at `m1`, the branch is created at `m1` but
the submitted commit carries `expectedHeadOid = "h1" ≠ "m1"`: the claim that
the expected head of the commit equals the default-branch tip from the resolver fails. -/
theorem newBranch_expectedHead_cex :
    remoteEnvA.refNameResp = Except.ok "" ∧
    remoteEnvA.mainOidResp = Except.ok ("m1", "rid1") ∧
    refInputs (mainRun gitEnvA remoteEnvA optsB).2 =
      [{ repositoryId := "rid1", name := "refs/heads/feat", oid := "m1" }] ∧
    commitInputs (mainRun gitEnvA remoteEnvA optsB).2 =
      [{ repositoryNameWithOwner := "o/r", branchName := "feat",
         messageHeadline := "msg", additions := chA,
         expectedHeadOid := "h1" }] ∧
    ("h1" : String) ≠ "m1" :=
  ⟨rfl, rfl, rfl, rfl, by decide⟩

/-- Claim C1 (amended): in a run where the target branch does not exist, the
Branch Creator is invoked with the resolved default-branch tip `oid`, but
the `expectedHeadOid` of the commit request is the hash of the local
repository HEAD reference (`repo.Head()`), which need not equal that tip. -/
theorem newBranch_expectedHead_amended (g : GitEnv) (r : RemoteEnv) (o : Opts)
    (st : List (String × FileStatus)) (ch : List FileAddition)
    (ow nm : List Char) (oid rid hh : String)
    (hopen : g.openResult = Except.ok st)
    (hch : addChanges g.readFile st = some ch)
    (hsplit : splitRepo o.repository = some (ow, nm))
    (hmain : r.mainOidResp = Except.ok (oid, rid))
    (hbr : r.refNameResp = Except.ok "")
    (hcr : r.createRefResp = Except.ok ())
    (hhead : g.headOid = Except.ok hh) :
    refInputs (mainRun g r o).2 = [CreateBranch o rid oid] ∧
    commitInputs (mainRun g r o).2 = [doCommitInput ch o hh] ∧
    (CreateBranch o rid oid).oid = oid ∧
    (doCommitInput ch o hh).expectedHeadOid = hh := by
  have hrun : mainRun g r o = submitPhase r o ch rid hh
      [ApiCall.getMainOidQ ow nm,
       ApiCall.checkBranchQ ow nm ("refs/heads/" ++ o.branchName),
       ApiCall.createRefM (CreateBranch o rid oid)] := by
    rw [mainRun_eq_branchPhase g r o st ch ow nm oid rid hopen hch hsplit hmain,
      branchPhase_eq_newBranch g r o ch oid rid _ ow nm hh hsplit hbr hcr hhead]
    rfl
  rw [hrun, refInputs_submitPhase, commitInputs_submitPhase]
  refine ⟨?_, ?_, rfl, rfl⟩
  · simp [refInputs]
  · simp [commitInputs]

/-- Witness for C1 (amended): the concrete run of the counterexample
environment, through the amended theorem. -/
theorem newBranch_expectedHead_amended_witness :
    refInputs (mainRun gitEnvA remoteEnvA optsB).2 =
      [CreateBranch optsB "rid1" "m1"] ∧
    commitInputs (mainRun gitEnvA remoteEnvA optsB).2 =
      [doCommitInput chA optsB "h1"] ∧
    (CreateBranch optsB "rid1" "m1").oid = "m1" ∧
    (doCommitInput chA optsB "h1").expectedHeadOid = "h1" :=
  newBranch_expectedHead_amended gitEnvA remoteEnvA optsB stA chA
    ['o'] ['r'] "m1" "rid1" "h1" rfl (by decide) (by decide) rfl rfl rfl rfl

/-- Claim C5: when the target branch exists and the fetch refresh fails, the
run continues with the pre-fetch local tracking reference: if that reference
resolves to `h2`, the sole commit request carries `expectedHeadOid = h2`; only
a failure to resolve the tracking reference itself is fatal, submitting no
commit. -/
theorem existingBranch_fetchFailure (g : GitEnv) (r : RemoteEnv) (o : Opts)
    (st : List (String × FileStatus)) (ch : List FileAddition)
    (ow nm : List Char) (oid rid refName e : String)
    (hopen : g.openResult = Except.ok st)
    (hch : addChanges g.readFile st = some ch)
    (hsplit : splitRepo o.repository = some (ow, nm))
    (hmain : r.mainOidResp = Except.ok (oid, rid))
    (hbr : r.refNameResp = Except.ok refName) (hne : refName ≠ "")
    (hfetch : g.fetchResult = Except.error e) :
    (∀ h2, g.refOidLocal ("refs/remotes/origin/" ++ o.branchName) =
        Except.ok h2 →
      commitInputs (mainRun g r o).2 = [doCommitInput ch o h2] ∧
      (doCommitInput ch o h2).expectedHeadOid = h2) ∧
    (∀ e2, g.refOidLocal ("refs/remotes/origin/" ++ o.branchName) =
        Except.error e2 →
      (mainRun g r o).1 = Outcome.fatal "unable to find HEAD for branch" ∧
      commitInputs (mainRun g r o).2 = []) := by
  have hstore : refStoreAfterFetch g = g.refOidLocal := by
    unfold refStoreAfterFetch
    rw [hfetch]
  have hmr := mainRun_eq_branchPhase g r o st ch ow nm oid rid hopen hch
    hsplit hmain
  constructor
  · intro h2 hl
    have hrun : mainRun g r o = submitPhase r o ch rid h2
        [ApiCall.getMainOidQ ow nm,
         ApiCall.checkBranchQ ow nm ("refs/heads/" ++ o.branchName)] := by
      rw [hmr, branchPhase_eq_existing_ok g r o ch oid rid _ ow nm refName h2
        hsplit hbr hne (by rw [hstore]; exact hl)]
      rfl
    rw [hrun, commitInputs_submitPhase]
    exact ⟨by simp [commitInputs], rfl⟩
  · intro e2 hl
    have hrun : mainRun g r o =
        (Outcome.fatal "unable to find HEAD for branch",
         [ApiCall.getMainOidQ ow nm,
          ApiCall.checkBranchQ ow nm ("refs/heads/" ++ o.branchName)]) := by
      rw [hmr, branchPhase_eq_existing_err g r o ch oid rid _ ow nm refName e2
        hsplit hbr hne (by rw [hstore]; exact hl)]
      rfl
    rw [hrun]
    exact ⟨rfl, by simp [commitInputs]⟩

/-- Witness for C5: concrete run with branch present, failing fetch, and the
local tracking reference at `L1`. -/
theorem existingBranch_fetchFailure_witness :
    commitInputs (mainRun gitEnvB remoteEnvB optsB).2 =
      [doCommitInput chA optsB "L1"] ∧
    (doCommitInput chA optsB "L1").expectedHeadOid = "L1" :=
  (existingBranch_fetchFailure gitEnvB remoteEnvB optsB stA chA
    ['o'] ['r'] "m1" "rid1" "feat" "network down"
    rfl (by decide) (by decide) rfl rfl (by decide) rfl).1 "L1" rfl

/-- Claim C6: a pull-request mutation appears in the trace only when the
pull-request option is set, and always with base ref name "main", head ref
the target branch, and title the commit message; conversely, when the option
is set and the commit mutation succeeded, such a pull-request call is in the
trace. -/
theorem pullRequest_iff_flag (g : GitEnv) (r : RemoteEnv) (o : Opts) :
    (∀ pi, ApiCall.createPRM pi ∈ (mainRun g r o).2 →
        o.pullRequest = true ∧ pi.baseRefName = "main" ∧
        pi.headRefName = o.branchName ∧ pi.title = o.message) ∧
    (∀ ci, ApiCall.commitM ci ∈ (mainRun g r o).2 →
        r.commitResp = Except.ok () → o.pullRequest = true →
        ∃ rid, ApiCall.createPRM (CreatePullRequest o rid) ∈ (mainRun g r o).2 ∧
          (CreatePullRequest o rid).baseRefName = "main" ∧
          (CreatePullRequest o rid).headRefName = o.branchName ∧
          (CreatePullRequest o rid).title = o.message) := by
  constructor
  · intro pi h
    obtain ⟨hp, rid, hpi⟩ := pr_mem_mainRun g r o pi h
    subst hpi
    exact ⟨hp, rfl, rfl, rfl⟩
  · intro ci h hc hp
    obtain ⟨rid, hm⟩ := commitOk_pr_mem_mainRun g r o ci hc hp h
    exact ⟨rid, hm, rfl, rfl, rfl⟩

/-- Witness for C6: in a run with the flag set that issued a pull-request
call, the fields of that call are as claimed. -/
theorem pullRequest_iff_flag_witness :
    optsA.pullRequest = true ∧
    (CreatePullRequest optsA "rid1").baseRefName = "main" ∧
    (CreatePullRequest optsA "rid1").headRefName = optsA.branchName ∧
    (CreatePullRequest optsA "rid1").title = optsA.message :=
  (pullRequest_iff_flag gitEnvA remoteEnvA optsA).1
    (CreatePullRequest optsA "rid1") (by decide)

/-- Claim C9: a branch-creation mutation appears in the trace only when the
existence check reported the branch absent, names `refs/heads/<branch>` and
points at the resolved default-branch tip; and a creation failure ends the
run fatally with no commit submitted. -/
theorem createBranch_guard (g : GitEnv) (r : RemoteEnv) (o : Opts) :
    (∀ ci, ApiCall.createRefM ci ∈ (mainRun g r o).2 →
        r.refNameResp = Except.ok "" ∧
        ci.name = "refs/heads/" ++ o.branchName ∧
        ∃ rid, r.mainOidResp = Except.ok (ci.oid, rid)) ∧
    (∀ st ch ow nm oid rid e,
        g.openResult = Except.ok st →
        addChanges g.readFile st = some ch →
        splitRepo o.repository = some (ow, nm) →
        r.mainOidResp = Except.ok (oid, rid) →
        r.refNameResp = Except.ok "" →
        r.createRefResp = Except.error e →
        mainRun g r o =
          (Outcome.fatal "unable to create branch",
           [ApiCall.getMainOidQ ow nm,
            ApiCall.checkBranchQ ow nm ("refs/heads/" ++ o.branchName),
            ApiCall.createRefM (CreateBranch o rid oid)]) ∧
        commitInputs (mainRun g r o).2 = []) := by
  constructor
  · exact fun ci h => ref_mem_mainRun g r o ci h
  · intro st ch ow nm oid rid e hopen hch hsplit hmain hbr hcr
    have hrun : mainRun g r o =
        (Outcome.fatal "unable to create branch",
         [ApiCall.getMainOidQ ow nm,
          ApiCall.checkBranchQ ow nm ("refs/heads/" ++ o.branchName),
          ApiCall.createRefM (CreateBranch o rid oid)]) := by
      rw [mainRun_eq_branchPhase g r o st ch ow nm oid rid hopen hch hsplit
        hmain, branchPhase_eq_createFail g r o ch oid rid _ ow nm e hsplit hbr
        hcr]
      rfl
    refine ⟨hrun, ?_⟩
    rw [hrun]
    simp [commitInputs]

theorem commitInputs_branchPhase_prFlag (g : GitEnv) (r : RemoteEnv)
    (re br me : String) (p p' : Bool) (ch : List FileAddition)
    (oid rid : String) (pre : List ApiCall) :
    commitInputs (branchPhase g r ⟨re, br, me, p⟩ ch oid rid pre).2 =
      commitInputs (branchPhase g r ⟨re, br, me, p'⟩ ch oid rid pre).2 := by
  unfold branchPhase
  dsimp only
  cases hcb : CheckBranchExists re br r.refNameResp with
  | none => rfl
  | some q2res =>
      obtain ⟨q2, b, eo⟩ := q2res
      dsimp only
      cases eo with
      | some e => rfl
      | none =>
          dsimp only
          cases b with
          | true =>
              simp only [eq_self_iff_true, if_true]
              cases hl : refStoreAfterFetch g ("refs/remotes/origin/" ++ br) with
              | error e2 => rfl
              | ok h2 =>
                  rw [commitInputs_submitPhase, commitInputs_submitPhase]
                  rfl
          | false =>
              simp only [Bool.false_eq_true, if_false]
              cases hcr : r.createRefResp with
              | error e3 => rfl
              | ok u =>
                  dsimp only
                  cases hh : g.headOid with
                  | error e4 => rfl
                  | ok h2 =>
                      rw [commitInputs_submitPhase, commitInputs_submitPhase]
                      rfl

/-- Claim C10: two runs over the same environment that differ only in the
pull-request flag construct identical commit mutation inputs: the flag has no
influence on the submitted commit. -/
theorem commitRequest_ignores_prFlag (g : GitEnv) (r : RemoteEnv)
    (o o' : Opts)
    (hr : o.repository = o'.repository) (hb : o.branchName = o'.branchName)
    (hm : o.message = o'.message) :
    commitInputs (mainRun g r o).2 = commitInputs (mainRun g r o').2 := by
  obtain ⟨re, br, me, p⟩ := o
  obtain ⟨re', br', me', p'⟩ := o'
  simp only at hr hb hm
  subst hr
  subst hb
  subst hm
  unfold mainRun
  cases ho : g.openResult with
  | error e => rfl
  | ok st =>
      dsimp only
      cases hac : addChanges g.readFile st with
      | none => rfl
      | some ch =>
          dsimp only
          cases hgm : getMainOid re r.mainOidResp with
          | none => rfl
          | some q1res =>
              obtain ⟨q1, res1⟩ := q1res
              dsimp only
              cases hres : res1 with
              | error e => rfl
              | ok oidrid =>
                  obtain ⟨oid, rid⟩ := oidrid
                  dsimp only
                  exact commitInputs_branchPhase_prFlag g r re br me p p' ch
                    oid rid [q1]

/-- Witness for C10: the concrete runs differing only in the pull-request
flag yield the same commit inputs. -/
theorem commitRequest_ignores_prFlag_witness :
    commitInputs (mainRun gitEnvA remoteEnvA optsA).2 =
      commitInputs (mainRun gitEnvA remoteEnvA optsB).2 :=
  commitRequest_ignores_prFlag gitEnvA remoteEnvA optsA optsB rfl rfl rfl

/-- Witness for C9: in the concrete absent-branch run, the issued
branch-creation call satisfies the guard conclusions. -/
theorem createBranch_guard_witness :
    remoteEnvA.refNameResp = Except.ok "" ∧
    (CreateBranch optsB "rid1" "m1").name = "refs/heads/" ++ optsB.branchName ∧
    ∃ rid, remoteEnvA.mainOidResp =
      Except.ok ((CreateBranch optsB "rid1" "m1").oid, rid) :=
  (createBranch_guard gitEnvA remoteEnvA optsB).1
    (CreateBranch optsB "rid1" "m1") (by decide)

end GithubCommitter
